import Mathlib

/-
Formal verification of the github2gram webhook service.

The definitions below are a shallow embedding, in Lean, of the TypeScript
sources of the repository:

* GitHubWebhookService — src/services/github-webhook.service.ts and the
  five-event revision of the same class embedded at the end of
  src/services/github-webhook.service.spec.ts (lines 262-818).  The
  five-event revision is the one the specification describes: it adds
  issue and pull-request handling, the repo-tag helper, and the
  try/catch around the signature comparison.  Where both revisions
  define the same method (processPushEvent, isPushEvent, processStarEvent,
  processForkEvent) the logic is identical and a single embedding covers
  both.
* TelegramService — src/services/telegram.service.ts.
* The configuration loader — the configuration() function of the
  application module (REPO_..._CHAT_ID environment keys).

Modelling conventions:
* JavaScript strings are Lean String values; string helpers named js...
  reproduce the semantics of the JavaScript methods actually called
  (replace with a string pattern replaces the FIRST occurrence only,
  split, substring, startsWith, endsWith, Array.join, Set insertion).
* JavaScript runtime errors (TypeError from a member access on
  undefined, RangeError from crypto.timingSafeEqual on buffers of
  different length) are modelled with Except JsError.
* Possibly-absent values (undefined) are modelled with Option.
* Node buffers obtained by Buffer.from(string) are modelled by the
  string itself (its character sequence): UTF-8 encoding is injective,
  and a length mismatch — whether measured in bytes or in characters —
  lands in the reject-or-throw path of the comparison, which the
  surrounding catch turns into false, so the Boolean result of the
  modelled function does not depend on this choice.
* new Date().toISOString() timestamps are wall-clock reads and are
  omitted from the summary records; no claim mentions them.
-/

/-! ## JavaScript string primitives used by the sources -/

/-- Boolean test that `s` starts with `p`, modelling the JavaScript
startsWith method with a string argument. -/
def jsStartsWith (s p : String) : Bool :=
  p.data.isPrefixOf s.data

/-- Boolean test that `s` ends with `p`, modelling the JavaScript
endsWith method with a string argument. -/
def jsEndsWith (s p : String) : Bool :=
  p.data.isSuffixOf s.data

/-- JavaScript substring(start, stop) for start ≤ stop: the characters
with indices in the interval from start (inclusive) to stop (exclusive),
clamped to the string length. -/
def jsSubstring (s : String) (start stop : Nat) : String :=
  ⟨(s.data.take stop).drop start⟩

/-- Index of the first occurrence of `pat` in a character list, if any
(the search JavaScript replace performs for a string pattern). -/
def findFirstIdx (pat : List Char) : List Char → Option Nat
  | [] => if pat.isPrefixOf ([] : List Char) then some 0 else none
  | c :: cs =>
    if pat.isPrefixOf (c :: cs) then some 0
    else (findFirstIdx pat cs).map (fun i => i + 1)

/-- Replace the first occurrence of `pat` in `s` by `repl` (character
lists); the list is returned unchanged when `pat` does not occur. -/
def jsReplaceFirstL (s pat repl : List Char) : List Char :=
  match findFirstIdx pat s with
  | none => s
  | some i => s.take i ++ repl ++ s.drop (i + pat.length)

/-- JavaScript replace with a string pattern: only the FIRST occurrence
of `pat` in `s` is replaced by `repl`. -/
def jsReplaceFirst (s pat repl : String) : String :=
  ⟨jsReplaceFirstL s.data pat.data repl.data⟩

/-- JavaScript split on a single-character separator, on character
lists.  The result is never empty: splitting the empty string yields
one empty segment, and a trailing separator yields a trailing empty
segment, exactly as in JavaScript. -/
def jsSplitL (sep : Char) : List Char → List (List Char)
  | [] => [[]]
  | c :: cs =>
    if c = sep then [] :: jsSplitL sep cs
    else
      match jsSplitL sep cs with
      | [] => [[c]]
      | h :: t => (c :: h) :: t

/-- JavaScript split on a single-character separator. -/
def jsSplit (s : String) (sep : Char) : List String :=
  (jsSplitL sep s.data).map (fun l => ⟨l⟩)

/-- JavaScript Array.join with separator `sep`. -/
def jsJoin (l : List String) (sep : String) : String :=
  match l with
  | [] => ""
  | h :: t => t.foldl (fun acc s => acc ++ sep ++ s) h

/-- One step of inserting into a JavaScript Set whose iteration order we
track as a list: a value already present is ignored, a new value is
appended. -/
def addUnique {α : Type} [DecidableEq α] (acc : List α) (x : α) : List α :=
  if x ∈ acc then acc else acc ++ [x]

/-- Iteration order of a JavaScript Set built from the elements of `l`
(spread back into an array): duplicates collapse to their first
occurrence, insertion order is kept. -/
def jsSetFrom {α : Type} [DecidableEq α] (l : List α) : List α :=
  l.foldl addUnique []

/-- Specification-side first-occurrence filter: keep an element exactly
when it has not been seen before, in order.  Used to state the
order-preserving-dedup property of the changed-files accumulation. -/
def keepFirst {α : Type} [DecidableEq α] (seen : List α) : List α → List α
  | [] => []
  | x :: xs =>
    if x ∈ seen then keepFirst seen xs else x :: keepFirst (seen ++ [x]) xs

/-! ## Signature verifier (GitHubWebhookService.verifySignature) -/

/-- JavaScript runtime errors that the modelled code can raise. -/
inductive JsError where
  | typeError
  | rangeError
deriving DecidableEq

/-- Node crypto.timingSafeEqual: throws a RangeError when the two
buffers differ in length, otherwise reports equality of their
contents. -/
def timingSafeEqualJs (a b : String) : Except JsError Bool :=
  if a.length = b.length then Except.ok (a == b)
  else Except.error JsError.rangeError

/-- GitHubWebhookService.verifySignature (spec.ts lines 362-383).  The
configured webhook secret is passed as a parameter (the service reads it
from configuration; an unconfigured secret is the empty string, which
JavaScript treats as falsy exactly like undefined).  `hmacHex` stands
for the lowercase hex digest of the Node library call
crypto.createHmac(sha256, secret).update(payload).digest(hex); the HMAC
itself is an external library primitive and is kept abstract as a
function parameter.  The supplied signature is an Option because the
request header may be absent (undefined), in which case
Buffer.from(undefined) throws a TypeError; the try/catch in the source
turns both that and the RangeError of timingSafeEqual into false. -/
def verifySignature (hmacHex : String → String → String)
    (secret payload : String) (signature : Option String) : Bool :=
  if secret = "" then false
  else
    let expectedSignature := "sha256=" ++ hmacHex secret payload
    match signature with
    | none => false
    | some sig =>
      match timingSafeEqualJs sig expectedSignature with
      | Except.ok b => b
      | Except.error _ => false

/-- Claim C1 — For every configured secret, body and supplied signature,
verifySignature(body, sig) returns true if and only if sig equals the
string "sha256=" followed by the hex HMAC-SHA256 digest of the body
under the secret; and whenever the configured secret is empty
(unconfigured) it returns false, for every body and signature. -/
theorem verifySignature_true_iff_matches
    (hmacHex : String → String → String) (secret payload : String) :
    (∀ signature : Option String,
      secret = "" → verifySignature hmacHex secret payload signature = false) ∧
    (secret ≠ "" → ∀ sig : String,
      (verifySignature hmacHex secret payload (some sig) = true ↔
        sig = "sha256=" ++ hmacHex secret payload)) := by
  constructor
  · intro signature hs
    simp [verifySignature, hs]
  · intro hs sig
    simp only [verifySignature, if_neg hs]
    by_cases hlen : sig.length = ("sha256=" ++ hmacHex secret payload).length
    · simp only [timingSafeEqualJs, if_pos hlen]
      exact beq_iff_eq
    · simp only [timingSafeEqualJs, if_neg hlen]
      constructor
      · intro h
        exact absurd h (by simp)
      · intro h
        exact absurd (congrArg String.length h) hlen

/-- Witness for C1: a concrete secret, body and matching signature. -/
theorem verifySignature_true_iff_matches_witness :
    ("secret" : String) ≠ "" ∧
    verifySignature (fun _ _ => "ab12") "secret" "body" (some "sha256=ab12") = true :=
  ⟨by decide,
    ((verifySignature_true_iff_matches (fun _ _ => "ab12") "secret" "body").2
      (by decide) "sha256=ab12").mpr (by decide)⟩

/-- Claim C2 — For every body and every supplied signature (absent,
malformed, or of a byte length different from that of the expected
"sha256="-prefixed digest), verifySignature returns false rather than
raising an exception to its caller: the function is total with result
type Bool because the try/catch in the source converts the TypeError of
Buffer.from(undefined) and the RangeError of timingSafeEqual on
length-mismatched buffers into the return value false. -/
theorem verifySignature_false_of_mismatch
    (hmacHex : String → String → String) (secret payload : String)
    (signature : Option String)
    (h : signature ≠ some ("sha256=" ++ hmacHex secret payload)) :
    verifySignature hmacHex secret payload signature = false := by
  by_cases hs : secret = ""
  · simp [verifySignature, hs]
  · cases signature with
    | none => simp [verifySignature, hs]
    | some sig =>
      simp only [verifySignature, if_neg hs]
      by_cases hlen : sig.length = ("sha256=" ++ hmacHex secret payload).length
      · simp only [timingSafeEqualJs, if_pos hlen]
        have hne : sig ≠ "sha256=" ++ hmacHex secret payload := by
          intro hEq
          exact h (by rw [hEq])
        simp [hne]
      · simp only [timingSafeEqualJs]
        rw [if_neg hlen]

/-- Witness for C2: a concrete signature of the wrong length is rejected
with false (the RangeError raised inside the comparison is caught). -/
theorem verifySignature_false_of_mismatch_witness :
    (some "sha256=zz" ≠ some ("sha256=" ++ (fun (_ _ : String) => "ab12") "secret" "body")) ∧
    verifySignature (fun _ _ => "ab12") "secret" "body" (some "sha256=zz") = false :=
  ⟨by decide,
    verifySignature_false_of_mismatch (fun _ _ => "ab12") "secret" "body"
      (some "sha256=zz") (by decide)⟩

/-! ## Typed push events (the GitHubWebhookEvent interface) -/

/-- Author record of a commit in a push payload (only the field the
service reads). -/
structure GitHubCommitAuthor where
  name : String
deriving DecidableEq

/-- Commit record of a push payload (the fields the service reads). -/
structure GitHubCommit where
  message : String
  author : GitHubCommitAuthor
  added : List String
  removed : List String
  modified : List String
deriving DecidableEq

/-- Repository descriptor of a push payload (the field the push handler
reads). -/
structure GitHubRepositoryInfo where
  full_name : String
deriving DecidableEq

/-- Pusher descriptor of a push payload. -/
structure GitHubPusher where
  name : String
deriving DecidableEq

/-- Structurally valid push payload: the fields of the
GitHubWebhookEvent interface that processPushEvent reads. -/
structure GitHubWebhookEvent where
  ref : String
  repository : GitHubRepositoryInfo
  pusher : GitHubPusher
  compare : String
  commits : List GitHubCommit
deriving DecidableEq

/-- ProcessedWebhookData — output record of the push normalizer.  The
timestamp field (a wall-clock read) is omitted. -/
structure ProcessedWebhookData where
  repositoryName : String
  repositoryUrl : String
  branchName : String
  commitMessages : List String
  authors : List String
  changedFiles : List String
  compareUrl : String
  pusher : String
deriving DecidableEq

/-- GitHubWebhookService.isPushEvent: event.ref && event.ref.startsWith
with the refs/heads/ literal; an empty ref string is falsy. -/
def isPushEvent (event : GitHubWebhookEvent) : Bool :=
  (event.ref != "") && jsStartsWith event.ref "refs/heads/"

/-- Changed-files accumulation of processPushEvent: one JavaScript Set
filled commit by commit, added paths tagged "+ ", removed "- ",
modified "~ ", then spread back into an array in insertion order. -/
def changedFilesOf (commits : List GitHubCommit) : List String :=
  commits.foldl (fun acc commit =>
    let acc₁ := commit.added.foldl (fun a file => addUnique a ("+ " ++ file)) acc
    let acc₂ := commit.removed.foldl (fun a file => addUnique a ("- " ++ file)) acc₁
    commit.modified.foldl (fun a file => addUnique a ("~ " ++ file)) acc₂) []

/-- GitHubWebhookService.processPushEvent on a structurally valid push
payload. -/
def processPushEvent (event : GitHubWebhookEvent) : Option ProcessedWebhookData :=
  if isPushEvent event then
    some {
      repositoryName := event.repository.full_name
      repositoryUrl := "https://github.com/" ++ event.repository.full_name
      branchName := jsReplaceFirst event.ref "refs/heads/" ""
      commitMessages := event.commits.map (fun commit => commit.message)
      authors := jsSetFrom (event.commits.map (fun commit => commit.author.name))
      changedFiles := changedFilesOf event.commits
      compareUrl := event.compare
      pusher := event.pusher.name }
  else none

/-! ## Helper lemmas on the string primitives -/

theorem jsStartsWith_iff (s p : String) :
    jsStartsWith s p = true ↔ p.data <+: s.data := by
  unfold jsStartsWith
  exact List.isPrefixOf_iff_prefix

theorem findFirstIdx_of_prefix (pat s : List Char)
    (h : pat.isPrefixOf s = true) : findFirstIdx pat s = some 0 := by
  cases s with
  | nil => simp [findFirstIdx, h]
  | cons c cs => simp [findFirstIdx, h]

theorem jsReplaceFirstL_append (pat rest repl : List Char) :
    jsReplaceFirstL (pat ++ rest) pat repl = repl ++ rest := by
  have h : pat.isPrefixOf (pat ++ rest) = true := by
    rw [ List.isPrefixOf_iff_prefix]
    exact List.prefix_append _ _
  simp [jsReplaceFirstL, findFirstIdx_of_prefix _ _ h, List.drop_left]

theorem isPushEvent_iff (event : GitHubWebhookEvent) :
    isPushEvent event = true ↔ "refs/heads/".data <+: event.ref.data := by
  unfold isPushEvent
  rw [Bool.and_eq_true, bne_iff_ne, jsStartsWith_iff]
  constructor
  · rintro ⟨_, h⟩
    exact h
  · intro h
    refine ⟨?_, h⟩
    intro hEq
    rw [hEq] at h
    have := h.length_le
    simp at this

/-- Claim C3 — For every structurally valid push payload, processing it
as a push event returns null if and only if its ref does not start with
the literal prefix refs/heads/; and when a summary is produced, its
branch name is the ref with that prefix stripped. -/
theorem processPushEvent_none_iff (event : GitHubWebhookEvent) :
    (processPushEvent event = none ↔ ¬ "refs/heads/".data <+: event.ref.data) ∧
    (∀ d, processPushEvent event = some d →
      d.branchName.data = event.ref.data.drop ("refs/heads/".length)) := by
  have hiff := isPushEvent_iff event
  constructor
  · by_cases hp : isPushEvent event = true
    · simp [processPushEvent, hp, hiff.mp hp]
    · have hfalse : isPushEvent event = false := by
        simpa using hp
      simp only [processPushEvent, hfalse, Bool.false_eq_true, if_false, true_iff]
      exact fun hpre => hp (hiff.mpr hpre)
  · intro d hd
    by_cases hp : isPushEvent event = true
    · obtain ⟨t, ht⟩ := hiff.mp hp
      simp only [processPushEvent, hp, if_true] at hd
      have hbranch : d.branchName = jsReplaceFirst event.ref "refs/heads/" "" := by
        cases hd
        rfl
      rw [hbranch]
      show jsReplaceFirstL event.ref.data ("refs/heads/".data) [] =
        event.ref.data.drop ("refs/heads/".data.length)
      rw [← ht, jsReplaceFirstL_append, List.drop_left]
      rfl
    · have hfalse : isPushEvent event = false := by
        simpa using hp
      simp [processPushEvent, hfalse] at hd

/-- Sample push event on a branch ref, used by witnesses. -/
def pushEventMain : GitHubWebhookEvent :=
  { ref := "refs/heads/main"
    repository := { full_name := "test-org/test-repo" }
    pusher := { name := "test-user" }
    compare := "https://github.com/test-org/test-repo/compare/abc123...def456"
    commits :=
      [ { message := "Fix bug"
          author := { name := "Alice" }
          added := ["a.ts"]
          removed := []
          modified := ["b.ts"] },
        { message := "Add feature"
          author := { name := "Bob" }
          added := ["a.ts"]
          removed := []
          modified := [] } ] }

/-- Summary that processPushEvent produces for pushEventMain. -/
def processedMain : ProcessedWebhookData :=
  { repositoryName := "test-org/test-repo"
    repositoryUrl := "https://github.com/test-org/test-repo"
    branchName := "main"
    commitMessages := ["Fix bug", "Add feature"]
    authors := ["Alice", "Bob"]
    changedFiles := ["+ a.ts", "~ b.ts"]
    compareUrl := "https://github.com/test-org/test-repo/compare/abc123...def456"
    pusher := "test-user" }

/-- Sample push payload whose ref is a tag, used by witnesses. -/
def pushEventTag : GitHubWebhookEvent :=
  { ref := "refs/tags/v1.0.0"
    repository := { full_name := "test-org/test-repo" }
    pusher := { name := "test-user" }
    compare := ""
    commits := [] }

/-- Witness for C3: a tag ref is filtered to null, and the branch name
of a refs/heads/main push is the ref with the prefix stripped. -/
theorem processPushEvent_none_iff_witness :
    processPushEvent pushEventTag = none ∧
    processedMain.branchName.data = pushEventMain.ref.data.drop ("refs/heads/".length) :=
  ⟨(processPushEvent_none_iff pushEventTag).1.mpr (by decide),
    (processPushEvent_none_iff pushEventMain).2 processedMain (by decide)⟩

/-! ## Order-preserving dedup properties (claim C4) -/

/-- Files of one commit tagged the way processPushEvent tags them, in
the order the source loop visits them (added, removed, modified). -/
def taggedFiles (commit : GitHubCommit) : List String :=
  commit.added.map (fun file => "+ " ++ file)
    ++ commit.removed.map (fun file => "- " ++ file)
    ++ commit.modified.map (fun file => "~ " ++ file)

/-- Tagged file entries of a whole push, commits in payload order. -/
def taggedStream (commits : List GitHubCommit) : List String :=
  commits.flatMap taggedFiles

theorem foldl_addUnique_eq {α : Type} [DecidableEq α] (l acc : List α) :
    l.foldl addUnique acc = acc ++ keepFirst acc l := by
  induction l generalizing acc with
  | nil => simp [keepFirst]
  | cons x xs ih =>
    by_cases hx : x ∈ acc
    · simp [List.foldl_cons, addUnique, hx, keepFirst, ih]
    · simp [List.foldl_cons, addUnique, hx, keepFirst, ih (acc ++ [x]),
        List.append_assoc]

theorem mem_of_mem_keepFirst {α : Type} [DecidableEq α] {x : α} :
    ∀ {seen l : List α}, x ∈ keepFirst seen l → x ∈ l ∧ x ∉ seen := by
  intro seen l
  induction l generalizing seen with
  | nil => simp [keepFirst]
  | cons y ys ih =>
    intro h
    by_cases hy : y ∈ seen
    · rw [keepFirst, if_pos hy] at h
      obtain ⟨h1, h2⟩ := ih h
      exact ⟨List.mem_cons_of_mem _ h1, h2⟩
    · rw [keepFirst, if_neg hy] at h
      rcases List.mem_cons.mp h with h | h
      · subst h
        exact ⟨List.mem_cons_self _ _, hy⟩
      · obtain ⟨h1, h2⟩ := ih h
        exact ⟨List.mem_cons_of_mem _ h1,
          fun hs => h2 (List.mem_append_left _ hs)⟩

theorem mem_keepFirst_of_mem {α : Type} [DecidableEq α] {x : α} :
    ∀ {seen l : List α}, x ∈ l → x ∉ seen → x ∈ keepFirst seen l := by
  intro seen l
  induction l generalizing seen with
  | nil => simp
  | cons y ys ih =>
    intro hl hs
    by_cases hy : y ∈ seen
    · rw [keepFirst, if_pos hy]
      rcases List.mem_cons.mp hl with h | h
      · exact absurd (h ▸ hy) hs
      · exact ih h hs
    · rw [keepFirst, if_neg hy]
      rcases List.mem_cons.mp hl with h | h
      · exact h ▸ List.mem_cons_self _ _
      · by_cases hxy : x = y
        · exact hxy ▸ List.mem_cons_self _ _
        · refine List.mem_cons_of_mem _ (ih h ?_)
          intro hm
          rcases List.mem_append.mp hm with hm | hm
          · exact hs hm
          · exact hxy (by simpa using hm)

theorem keepFirst_nodup {α : Type} [DecidableEq α] :
    ∀ (seen l : List α), (keepFirst seen l).Nodup := by
  intro seen l
  induction l generalizing seen with
  | nil => simp [keepFirst]
  | cons y ys ih =>
    by_cases hy : y ∈ seen
    · rw [keepFirst, if_pos hy]
      exact ih seen
    · rw [keepFirst, if_neg hy]
      refine List.nodup_cons.mpr ⟨?_, ih _⟩
      intro hmem
      exact (mem_of_mem_keepFirst hmem).2 (List.mem_append_right _ (by simp))

theorem changedFilesOf_general (commits : List GitHubCommit) :
    ∀ acc : List String,
      commits.foldl (fun acc commit =>
        let acc₁ := commit.added.foldl (fun a file => addUnique a ("+ " ++ file)) acc
        let acc₂ := commit.removed.foldl (fun a file => addUnique a ("- " ++ file)) acc₁
        commit.modified.foldl (fun a file => addUnique a ("~ " ++ file)) acc₂) acc
      = (taggedStream commits).foldl addUnique acc := by
  induction commits with
  | nil =>
    intro acc
    simp [taggedStream]
  | cons c cs ih =>
    intro acc
    simp only [List.foldl_cons, taggedStream, List.flatMap_cons, List.foldl_append]
    rw [ih]
    congr 1
    simp [taggedFiles, List.foldl_append, List.foldl_map]

theorem changedFilesOf_spec (commits : List GitHubCommit) :
    changedFilesOf commits = keepFirst [] (taggedStream commits) := by
  unfold changedFilesOf
  rw [changedFilesOf_general]
  simpa using foldl_addUnique_eq (taggedStream commits) []

/-- Claim C4 — For every push payload accepted by the normalizer, the
changedFiles list has no duplicate entries, contains the tagged entry
for every path of the per-commit added/removed/modified lists, and is
exactly the first-occurrence filter of the tagged entries taken in
payload order (so "+ x" and "~ x" may coexist while a repeated
identical tagged string collapses to its first occurrence). -/
theorem processPushEvent_changedFiles_props (event : GitHubWebhookEvent)
    (d : ProcessedWebhookData) (h : processPushEvent event = some d) :
    d.changedFiles.Nodup ∧
    (∀ commit ∈ event.commits,
      (∀ file ∈ commit.added, ("+ " ++ file) ∈ d.changedFiles) ∧
      (∀ file ∈ commit.removed, ("- " ++ file) ∈ d.changedFiles) ∧
      (∀ file ∈ commit.modified, ("~ " ++ file) ∈ d.changedFiles)) ∧
    d.changedFiles = keepFirst [] (taggedStream event.commits) := by
  have hcf : d.changedFiles = changedFilesOf event.commits := by
    by_cases hp : isPushEvent event = true
    · simp only [processPushEvent, hp, if_true, Option.some.injEq] at h
      rw [← h]
    · have hfalse : isPushEvent event = false := by simpa using hp
      simp [processPushEvent, hfalse] at h
  rw [hcf, changedFilesOf_spec]
  refine ⟨keepFirst_nodup _ _, ?_, rfl⟩
  intro commit hc
  have hmem : ∀ s, s ∈ taggedFiles commit →
      s ∈ keepFirst [] (taggedStream event.commits) := by
    intro s hs
    exact mem_keepFirst_of_mem (List.mem_flatMap.mpr ⟨commit, hc, hs⟩) (by simp)
  refine ⟨?_, ?_, ?_⟩
  · intro file hf
    refine hmem _ (List.mem_append_left _ (List.mem_append_left _ ?_))
    exact List.mem_map.mpr ⟨file, hf, rfl⟩
  · intro file hf
    refine hmem _ (List.mem_append_left _ (List.mem_append_right _ ?_))
    exact List.mem_map.mpr ⟨file, hf, rfl⟩
  · intro file hf
    refine hmem _ (List.mem_append_right _ ?_)
    exact List.mem_map.mpr ⟨file, hf, rfl⟩

/-- Witness for C4: the two-commit sample push, whose repeated "+ a.ts"
entry collapses while "~ b.ts" is kept. -/
theorem processPushEvent_changedFiles_props_witness :
    processPushEvent pushEventMain = some processedMain ∧
    processedMain.changedFiles.Nodup ∧
    processedMain.changedFiles = keepFirst [] (taggedStream pushEventMain.commits) :=
  ⟨by decide,
    (processPushEvent_changedFiles_props pushEventMain processedMain (by decide)).1,
    (processPushEvent_changedFiles_props pushEventMain processedMain (by decide)).2.2⟩

/-! ## Raw events: JavaScript runtime view with possibly missing fields

The TypeScript interfaces promise full shapes, but at runtime the
payload is whatever JSON arrived; the service only checks the presence
of a few top-level fields.  These structures model the runtime view:
every field the service reads is an Option, none standing for undefined.
Member access on a present object yields the field value (possibly
undefined); member access on undefined throws a TypeError. -/

/-- Repository descriptor as the runtime may see it. -/
structure RawRepo where
  full_name : Option String
  html_url : Option String
  stargazers_count : Option Int
  forks_count : Option Int
deriving DecidableEq

/-- Sender / user descriptor as the runtime may see it. -/
structure RawUser where
  login : Option String
  html_url : Option String
deriving DecidableEq

/-- Commit author as the runtime may see it. -/
structure RawAuthor where
  name : Option String
deriving DecidableEq

/-- Commit record as the runtime may see it. -/
structure RawCommit where
  message : Option String
  author : Option RawAuthor
  added : Option (List String)
  removed : Option (List String)
  modified : Option (List String)
deriving DecidableEq

/-- Push payload as the runtime may see it. -/
structure RawPushEvent where
  ref : Option String
  repository : Option RawRepo
  pusher : Option RawAuthor
  compare : Option String
  commits : Option (List RawCommit)
deriving DecidableEq

/-- Push summary as actually produced at runtime: fields read from
missing nested data are undefined, i.e. none. -/
structure RawProcessedPush where
  repositoryName : Option String
  repositoryUrl : String
  branchName : String
  commitMessages : List (Option String)
  authors : List (Option String)
  changedFiles : List String
  compareUrl : Option String
  pusher : Option String
deriving DecidableEq

/-- JavaScript template-string interpolation of a possibly undefined
value: undefined prints as the literal text undefined. -/
def jsTemplate (s : Option String) : String :=
  match s with
  | some str => str
  | none => "undefined"

/-- GitHubWebhookService.processPushEvent on the runtime view.  The
guard only inspects ref; commits/author/added/removed/modified/
repository/pusher are dereferenced without a presence check, so a
missing one raises a TypeError, in source order. -/
def processPushEventRaw (event : RawPushEvent) :
    Except JsError (Option RawProcessedPush) :=
  match event.ref with
  | none => Except.ok none
  | some r =>
    if (r != "") && jsStartsWith r "refs/heads/" then
      let branchName := jsReplaceFirst r "refs/heads/" ""
      match event.commits with
      | none => Except.error JsError.typeError
      | some commits =>
        let commitMessages := commits.map (fun c => c.message)
        match commits.mapM (fun c => c.author) with
        | none => Except.error JsError.typeError
        | some authorRecs =>
          let authors := jsSetFrom (authorRecs.map (fun a => a.name))
          match commits.foldlM (fun acc c =>
              match c.added, c.removed, c.modified with
              | some ad, some rm, some md =>
                some (md.foldl (fun a file => addUnique a ("~ " ++ file))
                  (rm.foldl (fun a file => addUnique a ("- " ++ file))
                    (ad.foldl (fun a file => addUnique a ("+ " ++ file)) acc)))
              | _, _, _ => none) ([] : List String) with
          | none => Except.error JsError.typeError
          | some changedFiles =>
            match event.repository with
            | none => Except.error JsError.typeError
            | some repo =>
              match event.pusher with
              | none => Except.error JsError.typeError
              | some pusher =>
                Except.ok (some {
                  repositoryName := repo.full_name
                  repositoryUrl := "https://github.com/" ++ jsTemplate repo.full_name
                  branchName := branchName
                  commitMessages := commitMessages
                  authors := authors
                  changedFiles := changedFiles
                  compareUrl := event.compare
                  pusher := pusher.name })
    else Except.ok none

/-- Star payload as the runtime may see it. -/
structure RawStarEvent where
  action : Option String
  repository : Option RawRepo
  sender : Option RawUser
deriving DecidableEq

/-- Star summary as actually produced at runtime. -/
structure RawStarSummary where
  repositoryName : Option String
  repositoryUrl : Option String
  action : String
  userLogin : Option String
  userUrl : Option String
  starCount : Option Int
deriving DecidableEq

/-- GitHubWebhookService.processStarEvent on the runtime view: only the
presence (truthiness) of action, repository and sender is checked; the
nested fields are copied whether present or not, so the summary can be
partially populated.  No access here can throw. -/
def processStarEventRaw (event : RawStarEvent) :
    Except JsError (Option RawStarSummary) :=
  match event.action, event.repository, event.sender with
  | some a, some repo, some sender =>
    if a = "" then Except.ok none
    else
      Except.ok (some {
        repositoryName := repo.full_name
        repositoryUrl := repo.html_url
        action := a
        userLogin := sender.login
        userUrl := sender.html_url
        starCount := repo.stargazers_count })
  | _, _, _ => Except.ok none

/-- Fork payload as the runtime may see it. -/
structure RawForkEvent where
  forkee : Option RawRepo
  repository : Option RawRepo
  sender : Option RawUser
deriving DecidableEq

/-- Fork summary as actually produced at runtime. -/
structure RawForkSummary where
  repositoryName : Option String
  repositoryUrl : Option String
  forkName : Option String
  forkUrl : Option String
  userLogin : Option String
  userUrl : Option String
  forkCount : Option Int
deriving DecidableEq

/-- GitHubWebhookService.processForkEvent on the runtime view. -/
def processForkEventRaw (event : RawForkEvent) :
    Except JsError (Option RawForkSummary) :=
  match event.forkee, event.repository, event.sender with
  | some forkee, some repo, some sender =>
    Except.ok (some {
      repositoryName := repo.full_name
      repositoryUrl := repo.html_url
      forkName := forkee.full_name
      forkUrl := forkee.html_url
      userLogin := sender.login
      userUrl := sender.html_url
      forkCount := repo.forks_count })
  | _, _, _ => Except.ok none

/-- Label record as the runtime may see it. -/
structure RawLabel where
  name : Option String
deriving DecidableEq

/-- Issue record as the runtime may see it. -/
structure RawIssue where
  number : Option Int
  title : Option String
  html_url : Option String
  labels : Option (List RawLabel)
  assignees : Option (List RawUser)
  body : Option String
deriving DecidableEq

/-- Issues payload as the runtime may see it. -/
structure RawIssueEvent where
  action : Option String
  issue : Option RawIssue
  repository : Option RawRepo
  sender : Option RawUser
deriving DecidableEq

/-- Issue summary as actually produced at runtime. -/
structure RawIssueSummary where
  repositoryName : Option String
  repositoryUrl : Option String
  issueNumber : Option Int
  issueTitle : Option String
  issueUrl : Option String
  action : String
  userLogin : Option String
  userUrl : Option String
  labels : List (Option String)
  assignees : List (Option String)
  body : Option String
deriving DecidableEq

/-- GitHubWebhookService.processIssueEvent on the runtime view: presence
checks on action/issue/repository/sender, then the opened/closed/
reopened action filter; issue.labels.map throws when labels is missing,
while assignees uses optional chaining with a default and body uses
optional chaining. -/
def processIssueEventRaw (event : RawIssueEvent) :
    Except JsError (Option RawIssueSummary) :=
  match event.action, event.issue, event.repository, event.sender with
  | some a, some issue, some repo, some sender =>
    if a = "" then Except.ok none
    else if a ∉ (["opened", "closed", "reopened"] : List String) then Except.ok none
    else
      match issue.labels with
      | none => Except.error JsError.typeError
      | some labels =>
        Except.ok (some {
          repositoryName := repo.full_name
          repositoryUrl := repo.html_url
          issueNumber := issue.number
          issueTitle := issue.title
          issueUrl := issue.html_url
          action := a
          userLogin := sender.login
          userUrl := sender.html_url
          labels := labels.map (fun l => l.name)
          assignees :=
            match issue.assignees with
            | some users => users.map (fun u => u.login)
            | none => []
          body := issue.body.map (fun b => jsSubstring b 0 200) })
  | _, _, _, _ => Except.ok none

/-- Branch pointer (base/head) of a pull request as the runtime may see
it. -/
structure RawBranchRef where
  ref : Option String
deriving DecidableEq

/-- Pull-request record as the runtime may see it. -/
structure RawPullRequest where
  number : Option Int
  title : Option String
  html_url : Option String
  labels : Option (List RawLabel)
  assignees : Option (List RawUser)
  body : Option String
  base : Option RawBranchRef
  head : Option RawBranchRef
  draft : Option Bool
  merged : Option Bool
  changed_files : Option Int
  additions : Option Int
  deletions : Option Int
deriving DecidableEq

/-- Pull-request payload as the runtime may see it. -/
structure RawPullRequestEvent where
  action : Option String
  pull_request : Option RawPullRequest
  repository : Option RawRepo
  sender : Option RawUser
deriving DecidableEq

/-- Pull-request summary as actually produced at runtime. -/
structure RawPullRequestSummary where
  repositoryName : Option String
  repositoryUrl : Option String
  pullRequestNumber : Option Int
  pullRequestTitle : Option String
  pullRequestUrl : Option String
  action : String
  userLogin : Option String
  userUrl : Option String
  labels : List (Option String)
  assignees : List (Option String)
  body : Option String
  baseBranch : Option String
  headBranch : Option String
  isDraft : Option Bool
  isMerged : Option Bool
  changedFiles : Option Int
  additions : Option Int
  deletions : Option Int
deriving DecidableEq

/-- GitHubWebhookService.processPullRequestEvent on the runtime view:
presence checks on action/pull_request/repository/sender, the same
action filter as issues, then labels.map, base.ref and head.ref all
throw when the respective object is missing. -/
def processPullRequestEventRaw (event : RawPullRequestEvent) :
    Except JsError (Option RawPullRequestSummary) :=
  match event.action, event.pull_request, event.repository, event.sender with
  | some a, some pr, some repo, some sender =>
    if a = "" then Except.ok none
    else if a ∉ (["opened", "closed", "reopened"] : List String) then Except.ok none
    else
      match pr.labels with
      | none => Except.error JsError.typeError
      | some labels =>
        match pr.base with
        | none => Except.error JsError.typeError
        | some base =>
          match pr.head with
          | none => Except.error JsError.typeError
          | some headRef =>
            Except.ok (some {
              repositoryName := repo.full_name
              repositoryUrl := repo.html_url
              pullRequestNumber := pr.number
              pullRequestTitle := pr.title
              pullRequestUrl := pr.html_url
              action := a
              userLogin := sender.login
              userUrl := sender.html_url
              labels := labels.map (fun l => l.name)
              assignees :=
                match pr.assignees with
                | some users => users.map (fun u => u.login)
                | none => []
              body := pr.body.map (fun b => jsSubstring b 0 200)
              baseBranch := base.ref
              headBranch := headRef.ref
              isDraft := pr.draft
              isMerged := pr.merged
              changedFiles := pr.changed_files
              additions := pr.additions
              deletions := pr.deletions })
  | _, _, _, _ => Except.ok none

/-- Claim C5 — For every issues or pull_request payload whose action
field is present but not one of opened, closed, reopened, processing the
event returns null (whether the other required fields are present or
not, and without raising). -/
theorem issue_pr_action_filter :
    (∀ (event : RawIssueEvent) (a : String), event.action = some a →
      a ∉ (["opened", "closed", "reopened"] : List String) →
      processIssueEventRaw event = Except.ok none) ∧
    (∀ (event : RawPullRequestEvent) (a : String), event.action = some a →
      a ∉ (["opened", "closed", "reopened"] : List String) →
      processPullRequestEventRaw event = Except.ok none) := by
  constructor
  · intro event a ha hmem
    rcases event with ⟨act, iss, rep, snd⟩
    cases ha
    cases iss with
    | none => cases rep <;> cases snd <;> rfl
    | some issue =>
      cases rep with
      | none => cases snd <;> rfl
      | some repo =>
        cases snd with
        | none => rfl
        | some sender =>
          by_cases hae : a = ""
          · simp [processIssueEventRaw, hae]
          · simp [processIssueEventRaw, hae, hmem]
  · intro event a ha hmem
    rcases event with ⟨act, pr, rep, snd⟩
    cases ha
    cases pr with
    | none => cases rep <;> cases snd <;> rfl
    | some pull =>
      cases rep with
      | none => cases snd <;> rfl
      | some repo =>
        cases snd with
        | none => rfl
        | some sender =>
          by_cases hae : a = ""
          · simp [processPullRequestEventRaw, hae]
          · simp [processPullRequestEventRaw, hae, hmem]

/-- Sample issues payload with an edited action, used by witnesses. -/
def issueEventEdited : RawIssueEvent :=
  { action := some "edited"
    issue := some
      { number := some 1
        title := some "Title"
        html_url := some "https://github.com/o/r/issues/1"
        labels := some []
        assignees := none
        body := none }
    repository := some
      { full_name := some "o/r"
        html_url := some "https://github.com/o/r"
        stargazers_count := none
        forks_count := none }
    sender := some
      { login := some "u"
        html_url := some "https://github.com/u" } }

/-- Witness for C5: an issues payload whose action is edited is
filtered to null. -/
theorem issue_pr_action_filter_witness :
    issueEventEdited.action = some "edited" ∧
    ("edited" : String) ∉ (["opened", "closed", "reopened"] : List String) ∧
    processIssueEventRaw issueEventEdited = Except.ok none :=
  ⟨rfl, by decide, issue_pr_action_filter.1 issueEventEdited "edited" rfl (by decide)⟩

/-- Claim C6 (amended) — Events failing the top-level validity checks
(push: ref missing, empty or not a refs/heads/ ref; star: action,
repository or sender missing; fork: forkee, repository or sender
missing; issues and pull_request: action or the main object, repository
or sender missing) are discarded as null without an exception.  Deeper
missing required fields are NOT validated: see the counterexample
theorem for the raised TypeError and the partially populated summary
that refute the claim as originally stated. -/
theorem topLevelChecks_yield_null :
    (∀ event : RawPushEvent,
      (∀ r, event.ref = some r → ¬ "refs/heads/".data <+: r.data) →
      processPushEventRaw event = Except.ok none) ∧
    (∀ event : RawStarEvent,
      (event.action = none ∨ event.action = some "" ∨
        event.repository = none ∨ event.sender = none) →
      processStarEventRaw event = Except.ok none) ∧
    (∀ event : RawForkEvent,
      (event.forkee = none ∨ event.repository = none ∨ event.sender = none) →
      processForkEventRaw event = Except.ok none) ∧
    (∀ event : RawIssueEvent,
      (event.action = none ∨ event.action = some "" ∨ event.issue = none ∨
        event.repository = none ∨ event.sender = none) →
      processIssueEventRaw event = Except.ok none) ∧
    (∀ event : RawPullRequestEvent,
      (event.action = none ∨ event.action = some "" ∨
        event.pull_request = none ∨
        event.repository = none ∨ event.sender = none) →
      processPullRequestEventRaw event = Except.ok none) := by
  refine ⟨?_, ?_, ?_, ?_, ?_⟩
  · intro event h
    rcases event with ⟨r0, rep, pus, cmp, cms⟩
    cases r0 with
    | none => rfl
    | some r =>
      have hsw : jsStartsWith r "refs/heads/" = false := by
        rcases Bool.eq_false_or_eq_true (jsStartsWith r "refs/heads/") with h1 | h1
        · exact absurd ((jsStartsWith_iff _ _).mp h1) (h r rfl)
        · exact h1
      simp [processPushEventRaw, hsw]
  · intro event h
    rcases event with ⟨act, rep, snd⟩
    rcases h with h | h | h | h <;> subst h
    · cases rep <;> cases snd <;> rfl
    · cases rep <;> cases snd <;> simp [processStarEventRaw]
    · cases act <;> cases snd <;> rfl
    · cases act <;> cases rep <;> rfl
  · intro event h
    rcases event with ⟨fk, rep, snd⟩
    rcases h with h | h | h <;> subst h
    · cases rep <;> cases snd <;> rfl
    · cases fk <;> cases snd <;> rfl
    · cases fk <;> cases rep <;> rfl
  · intro event h
    rcases event with ⟨act, iss, rep, snd⟩
    rcases h with h | h | h | h | h <;> subst h
    · cases iss <;> cases rep <;> cases snd <;> rfl
    · cases iss <;> cases rep <;> cases snd <;> simp [processIssueEventRaw]
    · cases act <;> cases rep <;> cases snd <;> rfl
    · cases act <;> cases iss <;> cases snd <;> rfl
    · cases act <;> cases iss <;> cases rep <;> rfl
  · intro event h
    rcases event with ⟨act, pr, rep, snd⟩
    rcases h with h | h | h | h | h <;> subst h
    · cases pr <;> cases rep <;> cases snd <;> rfl
    · cases pr <;> cases rep <;> cases snd <;> simp [processPullRequestEventRaw]
    · cases act <;> cases rep <;> cases snd <;> rfl
    · cases act <;> cases pr <;> cases snd <;> rfl
    · cases act <;> cases pr <;> cases rep <;> rfl

/-- Sample star payload with no sender, used by witnesses. -/
def starEventNoSender : RawStarEvent :=
  { action := some "created"
    repository := some
      { full_name := some "o/r"
        html_url := some "https://github.com/o/r"
        stargazers_count := some 42
        forks_count := some 0 }
    sender := none }

/-- Witness for the amended C6: a star payload with no sender is
discarded as null without an exception. -/
theorem topLevelChecks_yield_null_witness :
    starEventNoSender.sender = none ∧
    processStarEventRaw starEventNoSender = Except.ok none :=
  ⟨rfl, topLevelChecks_yield_null.2.1 starEventNoSender
    (Or.inr (Or.inr (Or.inr rfl)))⟩

/-- Push payload with a valid branch ref but no commits list, and no
repository or pusher either. -/
def pushEventMissingCommits : RawPushEvent :=
  { ref := some "refs/heads/main"
    repository := none
    pusher := none
    compare := none
    commits := none }

/-- Star payload that passes the presence checks while every nested
field the summary copies is missing. -/
def starEventBareRepo : RawStarEvent :=
  { action := some "created"
    repository := some
      { full_name := none
        html_url := none
        stargazers_count := none
        forks_count := none }
    sender := some { login := none, html_url := none } }

/-- Counterexample to claim C6 as stated: a push event of a supported
type with the required commits field missing is not discarded as null —
the normalizer throws a TypeError (commits.map on undefined); and a star
event whose nested required fields are missing yields a partially
populated summary rather than null. -/
theorem missing_nested_fields_not_null :
    processPushEventRaw pushEventMissingCommits = Except.error JsError.typeError ∧
    processPushEventRaw pushEventMissingCommits ≠ Except.ok none ∧
    processStarEventRaw starEventBareRepo = Except.ok (some
      { repositoryName := none
        repositoryUrl := none
        action := "created"
        userLogin := none
        userUrl := none
        starCount := none }) := by
  refine ⟨rfl, ?_, rfl⟩
  intro h
  exact Except.noConfusion h

/-! ## Routing resolver (TelegramService) -/

/-- Lookup of an own property in a JavaScript object modelled as an
association list in object key order. -/
def lookupAssoc : List (String × String) → String → Option String
  | [], _ => none
  | (k, v) :: rest, name => if k = name then some v else lookupAssoc rest name

/-- TelegramService.getChatIdForRepository (telegram.service.ts lines
71-75): exact case-sensitive lookup of the repository name in the
repositories table; the trailing || null also turns a falsy
(empty-string) mapped value into null. -/
def getChatIdForRepository (repositories : List (String × String))
    (repositoryName : String) : Option String :=
  match lookupAssoc repositories repositoryName with
  | some v => if v = "" then none else some v
  | none => none

/-- Chat identifier that TelegramService.sendMessage targets: the chatId
option when truthy, else the configured default; none when even that is
empty (the send is then refused with an error log and false). -/
def sendMessageChatId (optChatId : Option String) (defaultChatId : String) :
    Option String :=
  let chatId :=
    match optChatId with
    | some c => if c = "" then defaultChatId else c
    | none => defaultChatId
  if chatId = "" then none else some chatId

/-- Chat identifier that TelegramService.sendWebhookNotification
(telegram.service.ts lines 80-94) routes the notification to: the
repository-specific chat when getChatIdForRepository finds one, else
whatever sendMessage falls back to. -/
def sendWebhookNotificationChatId (repositories : List (String × String))
    (defaultChatId : String) (repositoryName : String) : Option String :=
  match getChatIdForRepository repositories repositoryName with
  | some repoChatId => sendMessageChatId (some repoChatId) defaultChatId
  | none => sendMessageChatId none defaultChatId

theorem lookupAssoc_eq_some_of_mem :
    ∀ {l : List (String × String)}, (l.map Prod.fst).Nodup →
      ∀ {k v : String}, (k, v) ∈ l → lookupAssoc l k = some v := by
  intro l
  induction l with
  | nil => simp
  | cons p rest ih =>
    intro hnodup k v hm
    obtain ⟨k', v'⟩ := p
    rcases List.mem_cons.mp hm with h | h
    · cases h
      simp [lookupAssoc]
    · have hk : k' ≠ k := by
        intro hEq
        subst hEq
        exact (List.nodup_cons.mp hnodup).1
          (List.mem_map.mpr ⟨(k', v), h, rfl⟩)
      simp only [lookupAssoc, if_neg hk]
      exact ih (List.nodup_cons.mp hnodup).2 h

theorem lookupAssoc_eq_none :
    ∀ {l : List (String × String)} {k : String},
      k ∉ l.map Prod.fst → lookupAssoc l k = none := by
  intro l
  induction l with
  | nil => intro k h; rfl
  | cons p rest ih =>
    intro k h
    obtain ⟨k', v'⟩ := p
    rw [List.map_cons, List.mem_cons] at h
    push_neg at h
    simp only [lookupAssoc, if_neg (Ne.symm h.1)]
    exact ih h.2

theorem lookupAssoc_filter_self (l : List (String × String)) (k : String) :
    lookupAssoc (l.filter (fun p => p.1 != k)) k = none := by
  induction l with
  | nil => rfl
  | cons p rest ih =>
    obtain ⟨k', v'⟩ := p
    by_cases hk : k' = k
    · simpa [List.filter_cons, hk] using ih
    · simpa [List.filter_cons, bne_iff_ne.mpr hk, lookupAssoc, hk] using ih

/-- Claim C7 (amended) — For every routing table (with the unique keys a
JavaScript object guarantees) and repository full name: an exact
case-sensitive key mapped to a non-empty chat identifier resolves to
that identifier, and a name that is not a key at all (near matches —
different case, trailing slash, prefixes — are simply different
strings) resolves to the configured default chat identifier.  The
original unconditional claim fails for a key mapped to the empty
string: see the counterexample theorem. -/
theorem resolveChat_exact_match (repositories : List (String × String))
    (defaultChatId repositoryName : String)
    (hnodup : (repositories.map Prod.fst).Nodup) :
    (∀ v, (repositoryName, v) ∈ repositories → v ≠ "" →
      sendWebhookNotificationChatId repositories defaultChatId repositoryName
        = some v) ∧
    (repositoryName ∉ repositories.map Prod.fst → defaultChatId ≠ "" →
      sendWebhookNotificationChatId repositories defaultChatId repositoryName
        = some defaultChatId) := by
  constructor
  · intro v hm hv
    have hl := lookupAssoc_eq_some_of_mem hnodup hm
    simp [sendWebhookNotificationChatId, getChatIdForRepository, hl, hv,
      sendMessageChatId]
  · intro hnone hd
    have hl := lookupAssoc_eq_none hnone
    simp [sendWebhookNotificationChatId, getChatIdForRepository, hl,
      sendMessageChatId, hd]

/-- Witness for the amended C7: an exact key resolves to its override;
a case variant and a trailing-slash variant fall back to the default. -/
theorem resolveChat_exact_match_witness :
    sendWebhookNotificationChatId [("org/repo", "-100")] "D" "org/repo"
      = some "-100" ∧
    sendWebhookNotificationChatId [("org/repo", "-100")] "D" "Org/Repo"
      = some "D" ∧
    sendWebhookNotificationChatId [("org/repo", "-100")] "D" "org/repo/"
      = some "D" :=
  ⟨(resolveChat_exact_match [("org/repo", "-100")] "D" "org/repo"
      (by decide)).1 "-100" (by decide) (by decide),
    (resolveChat_exact_match [("org/repo", "-100")] "D" "Org/Repo"
      (by decide)).2 (by decide) (by decide),
    (resolveChat_exact_match [("org/repo", "-100")] "D" "org/repo/"
      (by decide)).2 (by decide) (by decide)⟩

/-- Counterexample to claim C7 as stated: with a routing table mapping
org/repo to the empty string, the name is an exact case-sensitive key
of the table, yet resolution returns the default chat identifier
instead of the mapped (empty) one. -/
theorem resolveChat_empty_override_cex :
    lookupAssoc [("org/repo", "")] "org/repo" = some "" ∧
    sendWebhookNotificationChatId [("org/repo", "")] "D" "org/repo" = some "D" ∧
    (some "D" : Option String) ≠ some "" := by
  refine ⟨rfl, rfl, ?_⟩
  decide

/-- Claim C10 — A routing table entry mapping a repository to the empty
string routes notifications exactly like an absent entry: through the
default-chat fallback of sendMessage, hence to the default chat
identifier whenever one is configured. -/
theorem emptyOverride_routes_default (repositories : List (String × String))
    (defaultChatId repositoryName : String)
    (h : lookupAssoc repositories repositoryName = some "") :
    sendWebhookNotificationChatId repositories defaultChatId repositoryName
      = sendMessageChatId none defaultChatId ∧
    sendWebhookNotificationChatId repositories defaultChatId repositoryName
      = sendWebhookNotificationChatId
          (repositories.filter (fun p => p.1 != repositoryName))
          defaultChatId repositoryName ∧
    (defaultChatId ≠ "" →
      sendWebhookNotificationChatId repositories defaultChatId repositoryName
        = some defaultChatId) := by
  have hg : getChatIdForRepository repositories repositoryName = none := by
    simp [getChatIdForRepository, h]
  have key : sendWebhookNotificationChatId repositories defaultChatId repositoryName
      = sendMessageChatId none defaultChatId := by
    unfold sendWebhookNotificationChatId
    rw [hg]
  have hg2 : getChatIdForRepository
      (repositories.filter (fun p => p.1 != repositoryName)) repositoryName = none := by
    simp [getChatIdForRepository, lookupAssoc_filter_self]
  refine ⟨key, ?_, ?_⟩
  · rw [key]
    unfold sendWebhookNotificationChatId
    rw [hg2]
  · intro hd
    rw [key]
    simp [sendMessageChatId, hd]

/-- Witness for C10: an empty-string override is skipped and the
notification goes to the configured default chat. -/
theorem emptyOverride_routes_default_witness :
    lookupAssoc [("own/rep", "")] "own/rep" = some "" ∧
    sendWebhookNotificationChatId [("own/rep", "")] "-1001" "own/rep"
      = some "-1001" :=
  ⟨rfl, (emptyOverride_routes_default [("own/rep", "")] "-1001" "own/rep"
    rfl).2.2 (by decide)⟩

/-! ## Configuration loader (REPO_..._CHAT_ID environment keys) -/

/-- Key transformation of the configuration loader:
key.replace(REPO_, empty).replace(_CHAT_ID, empty) — each replace
removing only the FIRST occurrence of its pattern. -/
def parseRepoKey (key : String) : String :=
  jsReplaceFirst (jsReplaceFirst key "REPO_" "") "_CHAT_ID" ""

/-- Assignment to a JavaScript object property modelled on the
association list: overwrite in place when the key exists, append
otherwise. -/
def jsObjectSet : List (String × String) → String → String → List (String × String)
  | [], k, v => [(k, v)]
  | (k', v') :: rest, k, v =>
    if k' = k then (k', v) :: rest else (k', v') :: jsObjectSet rest k v

/-- Configuration loader over the environment pairs: keys that start
with REPO_ and end with _CHAT_ID contribute their value under the
parseRepoKey-transformed key. -/
def buildRepositories (env : List (String × String)) : List (String × String) :=
  env.foldl (fun acc kv =>
    if jsStartsWith kv.1 "REPO_" && jsEndsWith kv.1 "_CHAT_ID" then
      jsObjectSet acc (parseRepoKey kv.1) kv.2
    else acc) []

/-- Specification-side reading of claim C9: the segment of the key
strictly between the leading REPO_ and the trailing _CHAT_ID. -/
def specMiddleSegment (key : String) : String :=
  ⟨(key.data.drop ("REPO_".length)).take
    (key.data.length - "REPO_".length - "_CHAT_ID".length)⟩

theorem findFirstIdx_append_self (pat : List Char) :
    ∀ (mid : List Char),
      (∀ i < mid.length, ¬ pat.isPrefixOf ((mid ++ pat).drop i) = true) →
      findFirstIdx pat (mid ++ pat) = some mid.length := by
  intro mid
  induction mid with
  | nil =>
    intro _
    have hp : pat.isPrefixOf pat = true := by
      rw [ List.isPrefixOf_iff_prefix]
    show findFirstIdx pat ([] ++ pat) = some 0
    rw [List.nil_append]
    exact findFirstIdx_of_prefix _ _ hp
  | cons c m ih =>
    intro h
    have h0 : ¬ pat.isPrefixOf (c :: (m ++ pat)) = true := by
      have h00 := h 0 (by simp)
      simpa using h00
    have htail : ∀ i < m.length, ¬ pat.isPrefixOf ((m ++ pat).drop i) = true := by
      intro i hi
      have hstep := h (i + 1) (Nat.succ_lt_succ hi)
      simpa using hstep
    have hstep : findFirstIdx pat ((c :: m) ++ pat)
        = if pat.isPrefixOf (c :: (m ++ pat)) then some 0
          else (findFirstIdx pat (m ++ pat)).map (fun i => i + 1) := rfl
    rw [hstep, if_neg h0, ih htail]
    simp

/-- Claim C9 (amended) — For every environment key of the shape REPO_
followed by a middle segment followed by _CHAT_ID, in which _CHAT_ID
does not occur before its trailing position, the loader stores the value
under exactly that middle segment, underscores preserved and with no
owner/repo split.  In general the loader removes the FIRST occurrence of
REPO_ and the FIRST occurrence of _CHAT_ID, which differs from the
trailing-occurrence reading of the claim on keys whose middle segment
itself contains _CHAT_ID (see the counterexample theorem). -/
theorem parseRepoKey_middle_verbatim (mid : String)
    (h : ∀ i < mid.data.length,
      ¬ "_CHAT_ID".data.isPrefixOf ((mid.data ++ "_CHAT_ID".data).drop i) = true) :
    parseRepoKey ("REPO_" ++ mid ++ "_CHAT_ID") = mid ∧
    ∀ v, buildRepositories [("REPO_" ++ mid ++ "_CHAT_ID", v)] = [(mid, v)] := by
  have hkey : ("REPO_" ++ mid ++ "_CHAT_ID").data
      = "REPO_".data ++ (mid.data ++ "_CHAT_ID".data) := rfl
  have h1 : (jsReplaceFirst ("REPO_" ++ mid ++ "_CHAT_ID") "REPO_" "").data
      = mid.data ++ "_CHAT_ID".data := by
    show jsReplaceFirstL ("REPO_" ++ mid ++ "_CHAT_ID").data "REPO_".data []
      = mid.data ++ "_CHAT_ID".data
    rw [hkey, jsReplaceFirstL_append, List.nil_append]
  have h2 : parseRepoKey ("REPO_" ++ mid ++ "_CHAT_ID") = mid := by
    unfold parseRepoKey
    apply String.ext
    show jsReplaceFirstL
      (jsReplaceFirst ("REPO_" ++ mid ++ "_CHAT_ID") "REPO_" "").data
      "_CHAT_ID".data [] = mid.data
    rw [h1]
    simp only [jsReplaceFirstL, findFirstIdx_append_self _ _ h]
    rw [List.take_left, List.drop_append, List.drop_length]
    simp
  refine ⟨h2, ?_⟩
  intro v
  have hstart : jsStartsWith ("REPO_" ++ mid ++ "_CHAT_ID") "REPO_" = true := by
    rw [jsStartsWith_iff, hkey]
    exact List.prefix_append _ _
  have hend : jsEndsWith ("REPO_" ++ mid ++ "_CHAT_ID") "_CHAT_ID" = true := by
    show ("_CHAT_ID".data).isSuffixOf ("REPO_" ++ mid ++ "_CHAT_ID").data = true
    rw [ List.isSuffixOf_iff_suffix, hkey, ← List.append_assoc]
    exact List.suffix_append _ _
  unfold buildRepositories
  simp only [List.foldl_cons, List.foldl_nil, hstart, hend, Bool.and_self,
    if_true]
  rw [h2]
  rfl

/-- Witness for the amended C9: the README example key
REPO_my-org_my-repo_CHAT_ID is stored under my-org_my-repo verbatim. -/
theorem parseRepoKey_middle_verbatim_witness :
    parseRepoKey ("REPO_" ++ "my-org_my-repo" ++ "_CHAT_ID") = "my-org_my-repo" ∧
    buildRepositories [("REPO_" ++ "my-org_my-repo" ++ "_CHAT_ID", "-1001234567890")]
      = [("my-org_my-repo", "-1001234567890")] :=
  ⟨(parseRepoKey_middle_verbatim "my-org_my-repo" (by decide)).1,
    (parseRepoKey_middle_verbatim "my-org_my-repo" (by decide)).2 "-1001234567890"⟩

/-- Counterexample to claim C9 as stated: the key
REPO_A_CHAT_ID_B_CHAT_ID starts with REPO_ and ends with _CHAT_ID; the
segment between the first REPO_ and the TRAILING _CHAT_ID is
A_CHAT_ID_B, but the loader removes the FIRST occurrence of _CHAT_ID
and stores the value under A_B_CHAT_ID instead. -/
theorem parseRepoKey_first_occurrence_cex :
    jsStartsWith "REPO_A_CHAT_ID_B_CHAT_ID" "REPO_" = true ∧
    jsEndsWith "REPO_A_CHAT_ID_B_CHAT_ID" "_CHAT_ID" = true ∧
    specMiddleSegment "REPO_A_CHAT_ID_B_CHAT_ID" = "A_CHAT_ID_B" ∧
    parseRepoKey "REPO_A_CHAT_ID_B_CHAT_ID" = "A_B_CHAT_ID" ∧
    buildRepositories [("REPO_A_CHAT_ID_B_CHAT_ID", "42")]
      = [("A_B_CHAT_ID", "42")] ∧
    ("A_B_CHAT_ID" : String) ≠ "A_CHAT_ID_B" := by
  refine ⟨by decide, by decide, by decide, by decide, by decide, by decide⟩

/-! ## Message formatter (getRepoTag and formatPushMessage)

The string literals below transcribe the source file byte for byte: the
emoji bytes of the original template literals appear in the repository
as the mojibake character sequences reproduced here with unicode
escapes. -/

/-- Leading characters of the push header line. -/
def emojiRocket : String := "ğŸš€"

/-- Leading characters of the branch line. -/
def emojiBranchLine : String := "ğŸŒ¿"

/-- Leading characters of the authors line. -/
def emojiAuthorsLine : String := "ğŸ‘¥"

/-- Leading characters of the commits heading. -/
def emojiCommitsLine : String := "ğŸ“¦"

/-- Leading characters of the changed-files heading. -/
def emojiFilesLine : String := "ğŸ› ï¸"

/-- Tree-branch prefix of each commit and file line (with its trailing
space). -/
def treeBranchStr : String := "â””â”€ "

/-- GitHubWebhookService.getRepoTag (spec.ts lines 358-360): hash
followed by split('/')[1], falling back to the whole name when the
split has no second segment (the ?? nullish coalescing; an empty second
segment is NOT nullish and is kept). -/
def getRepoTag (repositoryName : String) : String :=
  "#" ++ ((jsSplit repositoryName '/')[1]?.getD repositoryName)

/-- Header line of formatPushMessage (spec.ts line 640). -/
def pushHeader (pusher repoTag : String) : String :=
  emojiRocket ++ " <b>" ++ pusher ++ "</b> pushed to <b>" ++ repoTag ++ "</b>\n\n"

/-- GitHubWebhookService.formatPushMessage (spec.ts lines 629-676):
header, branch and authors lines, then a commits section (first 5
commits, first line of each message truncated to 80 characters with an
ellipsis, remainder collapsed) and a changed-files section (first 8
entries verbatim, remainder collapsed). -/
def formatPushMessage (data : ProcessedWebhookData) : String :=
  let repoTag := getRepoTag data.repositoryName
  let header := pushHeader data.pusher repoTag
  let branchInfo :=
    emojiBranchLine ++ " <b>Branch:</b> <code>" ++ data.branchName ++ "</code>\n"
  let authorsInfo :=
    emojiAuthorsLine ++ " <b>Authors:</b> " ++ jsJoin data.authors ", " ++ "\n\n"
  let message := header ++ branchInfo ++ authorsInfo
  let message :=
    if data.commitMessages.length > 0 then
      message ++ emojiCommitsLine ++ " <b>Commits ("
        ++ toString data.commitMessages.length ++ ")</b>\n"
        ++ String.join ((data.commitMessages.take 5).map (fun msg =>
            let cleanMsg := (jsSplit msg (Char.ofNat 10))[0]?.getD ""
            let truncatedMsg :=
              if cleanMsg.length > 80 then jsSubstring cleanMsg 0 77 ++ "..."
              else cleanMsg
            treeBranchStr ++ truncatedMsg ++ "\n"))
        ++ (if data.commitMessages.length > 5 then
              treeBranchStr ++ "...and "
                ++ toString (data.commitMessages.length - 5) ++ " more\n"
            else "")
        ++ "\n"
    else message
  if data.changedFiles.length > 0 then
    message ++ emojiFilesLine ++ " <b>Changed "
      ++ toString data.changedFiles.length ++ " "
      ++ (if data.changedFiles.length = 1 then "file" else "files") ++ "</b>\n"
      ++ String.join ((data.changedFiles.take 8).map (fun file =>
          treeBranchStr ++ "<code>" ++ file ++ "</code>\n"))
      ++ (if data.changedFiles.length > 8 then
            treeBranchStr ++ "...and "
              ++ toString (data.changedFiles.length - 8) ++ " more\n"
          else "")
  else message

/-- Specification-side reading of claim C8: the text after the LAST
slash of the full name (the whole name when no slash occurs). -/
def afterLastSlash (s : String) : String :=
  ⟨(s.data.reverse.takeWhile (fun c => c != '/')).reverse⟩

theorem data_append (a b : String) : (a ++ b).data = a.data ++ b.data := rfl

theorem jsSplitL_no_sep (sep : Char) :
    ∀ (l : List Char), (∀ c ∈ l, c ≠ sep) → jsSplitL sep l = [l] := by
  intro l
  induction l with
  | nil => intro _; rfl
  | cons c cs ih =>
    intro h
    have hc : c ≠ sep := h c (List.mem_cons_self _ _)
    rw [jsSplitL, if_neg hc, ih (fun d hd => h d (List.mem_cons_of_mem _ hd))]

theorem jsSplitL_append_sep (sep : Char) :
    ∀ (a rest : List Char), (∀ c ∈ a, c ≠ sep) →
      jsSplitL sep (a ++ sep :: rest) = a :: jsSplitL sep rest := by
  intro a
  induction a with
  | nil =>
    intro rest _
    show jsSplitL sep (sep :: rest) = [] :: jsSplitL sep rest
    rw [jsSplitL, if_pos rfl]
  | cons c cs ih =>
    intro rest h
    have hc : c ≠ sep := h c (List.mem_cons_self _ _)
    show jsSplitL sep (c :: (cs ++ sep :: rest)) = (c :: cs) :: jsSplitL sep rest
    rw [jsSplitL, if_neg hc, ih rest (fun d hd => h d (List.mem_cons_of_mem _ hd))]

theorem getRepoTag_one_slash (a b : String)
    (ha : '/' ∉ a.data) (hb : '/' ∉ b.data) :
    getRepoTag (a ++ "/" ++ b) = "#" ++ b := by
  have hdata : (a ++ "/" ++ b).data = a.data ++ '/' :: b.data := by
    show (a.data ++ ['/']) ++ b.data = a.data ++ '/' :: b.data
    rw [List.append_assoc, List.singleton_append]
  have hsplit : jsSplitL '/' (a.data ++ '/' :: b.data) = [a.data, b.data] := by
    rw [jsSplitL_append_sep '/' a.data _
        (fun c hc hEq => ha (by rw [← hEq]; exact hc)),
      jsSplitL_no_sep '/' b.data
        (fun c hc hEq => hb (by rw [← hEq]; exact hc))]
  unfold getRepoTag jsSplit
  rw [hdata, hsplit]
  rfl

theorem takeWhile_append_head_false {α : Type} (p : α → Bool) :
    ∀ (l : List α) (x : α) (r : List α),
      (∀ c ∈ l, p c = true) → p x = false →
      (l ++ x :: r).takeWhile p = l := by
  intro l
  induction l with
  | nil =>
    intro x r _ hx
    simp [List.takeWhile_cons, hx]
  | cons c cs ih =>
    intro x r hl hx
    have hc := hl c (List.mem_cons_self _ _)
    simp [List.takeWhile_cons, hc,
      ih x r (fun d hd => hl d (List.mem_cons_of_mem _ hd)) hx]

theorem afterLastSlash_one_slash (a b : String) (hb : '/' ∉ b.data) :
    afterLastSlash (a ++ "/" ++ b) = b := by
  have hdata : (a ++ "/" ++ b).data = a.data ++ '/' :: b.data := by
    show (a.data ++ ['/']) ++ b.data = a.data ++ '/' :: b.data
    rw [List.append_assoc, List.singleton_append]
  unfold afterLastSlash
  apply String.ext
  show (((a ++ "/" ++ b).data.reverse.takeWhile (fun c => c != '/')).reverse
    : List Char) = b.data
  rw [hdata, List.reverse_append, List.reverse_cons, List.append_assoc,
    List.singleton_append]
  rw [takeWhile_append_head_false _ b.data.reverse '/' a.data.reverse
    (fun c hc => bne_iff_ne.mpr
      (fun hEq => hb (by rw [← hEq]; exact List.mem_reverse.mp hc)))
    (by decide)]
  exact List.reverse_reverse _

theorem formatPushMessage_starts_with_header (data : ProcessedWebhookData) :
    (pushHeader data.pusher (getRepoTag data.repositoryName)).data
      <+: (formatPushMessage data).data := by
  unfold formatPushMessage
  split_ifs <;>
    (simp only [data_append, List.append_assoc]
     exact List.prefix_append _ _)

/-- Claim C8 (amended) — For every summary whose repository full name
contains exactly one slash (written a/b with slash-free a and b), the
repository tag rendered in the formatted message header is the hash
followed by the text after that (last) slash.  The source builds the
tag from split('/')[1], the SECOND slash-separated segment, which
coincides with the text after the last slash only in this
exactly-one-slash case; the counterexample theorem shows the divergence
on a name with two slashes. -/
theorem repoTag_second_segment (d : ProcessedWebhookData) (a b : String)
    (hname : d.repositoryName = a ++ "/" ++ b)
    (ha : '/' ∉ a.data) (hb : '/' ∉ b.data) :
    getRepoTag d.repositoryName = "#" ++ b ∧
    afterLastSlash d.repositoryName = b ∧
    (pushHeader d.pusher ("#" ++ b)).data <+: (formatPushMessage d).data := by
  have htag : getRepoTag (a ++ "/" ++ b) = "#" ++ b :=
    getRepoTag_one_slash a b ha hb
  have hafter : afterLastSlash (a ++ "/" ++ b) = b :=
    afterLastSlash_one_slash a b hb
  refine ⟨hname ▸ htag, hname ▸ hafter, ?_⟩
  have hpre := formatPushMessage_starts_with_header d
  rw [hname, htag] at hpre
  exact hpre

/-- Witness for the amended C8: the sample summary for
test-org/test-repo renders the tag #test-repo in its header. -/
theorem repoTag_second_segment_witness :
    getRepoTag processedMain.repositoryName = "#" ++ "test-repo" ∧
    afterLastSlash processedMain.repositoryName = "test-repo" ∧
    (pushHeader processedMain.pusher ("#" ++ "test-repo")).data
      <+: (formatPushMessage processedMain).data :=
  repoTag_second_segment processedMain "test-org" "test-repo"
    (by decide) (by decide) (by decide)

/-- Push summary whose repository full name has two slashes. -/
def pushDataTwoSlashes : ProcessedWebhookData :=
  { repositoryName := "a/b/c"
    repositoryUrl := ""
    branchName := "main"
    commitMessages := []
    authors := []
    changedFiles := []
    compareUrl := ""
    pusher := "p" }

/-- Counterexample to claim C8 as stated: for the full name a/b/c the
rendered repository tag is #b (from split('/')[1], the second segment),
not # followed by the text after the last slash, which would be #c. -/
theorem repoTag_not_last_segment_cex :
    getRepoTag "a/b/c" = "#b" ∧
    "#" ++ afterLastSlash "a/b/c" = "#c" ∧
    getRepoTag "a/b/c" ≠ "#" ++ afterLastSlash "a/b/c" ∧
    (pushHeader "p" "#b").data <+: (formatPushMessage pushDataTwoSlashes).data ∧
    ¬ (pushHeader "p" "#c").data <+: (formatPushMessage pushDataTwoSlashes).data :=
  ⟨by decide, by decide, by decide, by decide, by decide⟩
